import Mathlib

/-!
Verification of the 1c-help-parser pipeline.

This file gives a shallow embedding, in Lean, of the parts of the
1c-help-parser repository that its design claims talk about:

* `src/converters/split_converter.py` — the chunker/exporter
  (`split_by_category`, `split_into_chunks`, `export_split`,
  `create_main_index`);
* `src/parsers/bsl_syntax_extractor.py` — the page-to-record extractor
  (`extract_syntax_info`, per-section sibling scans, `categorize_stx`,
  `extract_all_stx`);
* `src/converters/optimized_split_converter.py` — the selector/scorer
  (`optimize_data`, `_sort_by_importance`);
* `src/converters/optimized_context_converter.py` — the optimized
  availability extraction (`extract_availability`,
  `format_optimized_item`).

Python dictionaries that carry records are modelled as structures whose
fields are the keys the translated code actually reads or writes; Python
strings are Lean strings, and the Python string operations used by the
code (`split`, `strip`, `in`, `replace`, `lower`, `len`) are re-implemented
below over `List Char` so that every definition is executable by the
kernel.  Field names that clash with Lean keywords are renamed:
`stx` models the Python key `syntax`, `exmpl` models `example`, and
`pfx` models the `prefix` argument.
-/

namespace HelpParser

/-! ### Python string primitives

`pyStrip` models `str.strip()` (whitespace at both ends), `strContains`
models the Python substring test `sub in s`, `pySplit` models
`str.split(sep)` for a non-empty separator, `pyReplace` models
`str.replace(old, new)`, `pyLower` models `str.lower()` on the ASCII and
Cyrillic ranges (the only alphabets the source's literals use), and
`strJoinWith` models `sep.join(parts)`. -/

/-- Characters discarded by Python `str.strip()` (the ASCII whitespace set). -/
def isSpaceChar (c : Char) : Bool :=
  c = ' ' || c = '\t' || c = '\n' || c = '\r' || c = '\x0b' || c = '\x0c'

/-- Model of Python `str.strip()`. -/
def pyStrip (s : String) : String :=
  ⟨((s.data.dropWhile isSpaceChar).reverse.dropWhile isSpaceChar).reverse⟩

/-- Character-list prefix test used by the substring search. -/
def isPrefixCL : List Char → List Char → Bool
  | [], _ => true
  | _ :: _, [] => false
  | a :: as, b :: bs => a = b && isPrefixCL as bs

/-- Search loop behind `strContains`. -/
def containsAux (sub : List Char) : List Char → Bool
  | [] => isPrefixCL sub []
  | c :: rest => isPrefixCL sub (c :: rest) || containsAux sub rest

/-- Model of the Python substring test `sub in s`. -/
def strContains (s sub : String) : Bool :=
  containsAux sub.data s.data

/-- Fueled splitting loop behind `pySplit`; the fuel is an upper bound on
the number of characters still to be consumed, so the recursion is
structural. -/
def splitAux (sep : List Char) : Nat → List Char → List Char → List (List Char)
  | 0, s, acc => [acc.reverse ++ s]
  | _ + 1, [], acc => [acc.reverse]
  | fuel + 1, c :: rest, acc =>
    if isPrefixCL sep (c :: rest) then
      acc.reverse :: splitAux sep fuel ((c :: rest).drop sep.length) []
    else
      splitAux sep fuel rest (c :: acc)

/-- Model of Python `s.split(sep)` for a non-empty separator `sep`
(`"".split(",") == [""]`, `"a,,b".split(",") == ["a","","b"]`). -/
def pySplit (s sep : String) : List String :=
  if sep.data = [] then [s]
  else (splitAux sep.data (s.data.length + 1) s.data []).map (fun cs => ⟨cs⟩)

/-- Model of Python `sep.join(parts)`. -/
def strJoinWith (sep : String) : List String → String
  | [] => ""
  | [s] => s
  | s :: rest => s ++ sep ++ strJoinWith sep rest

/-- Model of Python `s.replace(old, new)` for a non-empty `old`. -/
def pyReplace (s old new : String) : String :=
  strJoinWith new (pySplit s old)

/-- Lower-casing of one character: ASCII `A`-`Z`, Cyrillic `А`-`Я` and `Ё`,
exactly the letters appearing in the source's keyword literals; every
other character is left unchanged. -/
def pyLowerChar (c : Char) : Char :=
  if 'A' ≤ c ∧ c ≤ 'Z' then Char.ofNat (c.toNat + 32)
  else if 'А' ≤ c ∧ c ≤ 'Я' then Char.ofNat (c.toNat + 32)
  else if c = 'Ё' then 'ё'
  else c

/-- Model of Python `str.lower()` (restricted to the alphabets above). -/
def pyLower (s : String) : String :=
  ⟨s.data.map pyLowerChar⟩

/-! ### SplitConverter (`src/converters/split_converter.py`)

An exported context item is modelled by the two observations the chunker
makes of it: the value `item.get('category', 'other')` reads, and the
length `len(json.dumps(item, ensure_ascii=False))` of its JSON
serialization. -/

/-- One context item as seen by `SplitConverter`: its optional `category`
key and its serialized size `len(json.dumps(item, ensure_ascii=False))`. -/
structure Item where
  category : Option String
  jsonSize : Nat
deriving DecidableEq

/-- The two constructor settings of `SplitConverter`. -/
structure Settings where
  max_file_size_kb : Nat
  max_items_per_file : Nat
deriving DecidableEq

/-- Model of `item.get('category', 'other')`. -/
def categoryOf (i : Item) : String :=
  i.category.getD "other"

/-- Insertion-ordered list of the distinct category keys of `data`,
matching Python dict key order in `split_by_category`. -/
def categoryKeys (data : List Item) : List String :=
  data.foldl (fun ks i => if ks.contains (categoryOf i) then ks else ks ++ [categoryOf i]) []

/-- Model of `SplitConverter.split_by_category`: groups items by category
into an insertion-ordered dict of lists; each group keeps input order. -/
def split_by_category (data : List Item) : List (String × List Item) :=
  (categoryKeys data).map (fun c => (c, data.filter (fun i => categoryOf i == c)))

/-- Total serialized size of a chunk (sum of the items' JSON lengths). -/
def sizeSum (c : List Item) : Nat :=
  (c.map Item.jsonSize).sum

/-- The accumulation loop of `SplitConverter.split_into_chunks`:
`chunks`, `cur` and `curSize` are the Python variables `chunks`,
`current_chunk` and `current_size`. -/
def splitLoop (s : Settings) : List Item → List (List Item) → List Item → Nat → List (List Item)
  | [], chunks, cur, _ => if cur = [] then chunks else chunks ++ [cur]
  | item :: rest, chunks, cur, curSize =>
    if cur.length ≥ s.max_items_per_file ∨ curSize + item.jsonSize > s.max_file_size_kb * 1024 then
      if cur = [] then
        splitLoop s rest chunks (cur ++ [item]) (curSize + item.jsonSize)
      else
        splitLoop s rest (chunks ++ [cur]) [item] item.jsonSize
    else
      splitLoop s rest chunks (cur ++ [item]) (curSize + item.jsonSize)

/-- Model of `SplitConverter.split_into_chunks`. -/
def split_into_chunks (s : Settings) (items : List Item) : List (List Item) :=
  splitLoop s items [] [] 0

/-- Model of the Python format `f"{n:03d}"` for the chunk number. -/
def pad3 (n : Nat) : String :=
  let s := toString n
  if n < 10 then "00" ++ s else if n < 100 then "0" ++ s else s

/-- One chunk file as written by `export_split`: its name on disk and the
`items_count` recorded in its metadata block. -/
structure ChunkFile where
  filename : String
  items_count : Nat
deriving DecidableEq

/-- The per-category output of `export_split`: the chunk files written to
the category directory and the fields of the category index file. -/
structure CategoryExport where
  category : String
  files : List ChunkFile
  index_total_items : Nat
  index_total_chunks : Nat
  index_chunks : List String
deriving DecidableEq

/-- Model of `SplitConverter.export_split`: for every category, the chunk
files written (named `f"{category}_{i+1:03d}.json"`, prefixed with
`f"{pfx}_"` when `pfx` is non-empty) and the category index whose
`chunks` list is rebuilt as `[f"{category}_{i+1:03d}.json" ...]` without
the prefix, exactly as in the source. -/
def export_split (s : Settings) (data : List Item) (pfx : String) : List CategoryExport :=
  (split_by_category data).map (fun p =>
    let chunks := split_into_chunks s p.2
    { category := p.1
      files := chunks.enum.map (fun q =>
        { filename := (if pfx ≠ "" then pfx ++ "_" else "") ++ p.1 ++ "_" ++ pad3 (q.1 + 1) ++ ".json"
          items_count := q.2.length })
      index_total_items := p.2.length
      index_total_chunks := chunks.length
      index_chunks := (List.range chunks.length).map (fun i => p.1 ++ "_" ++ pad3 (i + 1) ++ ".json") })

/-- One category entry of the main index. -/
structure MainIndexCategory where
  items_count : Nat
  chunks_count : Nat
  files : List String
deriving DecidableEq

/-- The main index written by `create_main_index`. -/
structure MainIndex where
  total_items : Nat
  categories : List (String × MainIndexCategory)
  mode : String
  settings : Settings
deriving DecidableEq

/-- Model of `SplitConverter.create_main_index`. -/
def create_main_index (s : Settings) (all_items : List Item) (mode : String) : MainIndex :=
  { total_items := all_items.length
    categories := (split_by_category all_items).map (fun p =>
      let chunks := split_into_chunks s p.2
      (p.1, { items_count := p.2.length
              chunks_count := chunks.length
              files := (List.range chunks.length).map (fun i => p.1 ++ "_" ++ pad3 (i + 1) ++ ".json") }))
    mode := mode
    settings := s }

/-! ### Chunker lemmas -/

/-- A chunk emitted by the loop: non-empty, within the item ceiling, and
within the byte budget as soon as it holds at least two items. -/
def goodChunk (s : Settings) (c : List Item) : Prop :=
  c ≠ [] ∧ c.length ≤ s.max_items_per_file ∧
    (2 ≤ c.length → sizeSum c ≤ s.max_file_size_kb * 1024)

lemma sizeSum_append_one (c : List Item) (i : Item) :
    sizeSum (c ++ [i]) = sizeSum c + i.jsonSize := by
  simp [sizeSum]

lemma splitLoop_flatten (s : Settings) (rest : List Item) :
    ∀ (chunks : List (List Item)) (cur : List Item) (n : Nat),
      (splitLoop s rest chunks cur n).flatten = chunks.flatten ++ cur ++ rest := by
  induction rest with
  | nil =>
    intro chunks cur n
    by_cases h : cur = [] <;> simp [splitLoop, h]
  | cons item rest ih =>
    intro chunks cur n
    simp only [splitLoop]
    by_cases hcond : cur.length ≥ s.max_items_per_file ∨
        n + item.jsonSize > s.max_file_size_kb * 1024
    · by_cases hcur : cur = [] <;> simp [hcond, hcur, ih]
    · simp [hcond, ih]

lemma splitLoop_good (s : Settings) (h1 : 1 ≤ s.max_items_per_file) (rest : List Item) :
    ∀ (chunks : List (List Item)) (cur : List Item) (n : Nat),
      (∀ c ∈ chunks, goodChunk s c) →
      n = sizeSum cur →
      cur.length ≤ s.max_items_per_file →
      (2 ≤ cur.length → sizeSum cur ≤ s.max_file_size_kb * 1024) →
      ∀ c ∈ splitLoop s rest chunks cur n, goodChunk s c := by
  induction rest with
  | nil =>
    intro chunks cur n hchunks hn hlen hsize c hc
    by_cases h : cur = []
    · simp only [splitLoop, h, if_pos] at hc
      exact hchunks c (by simpa [h] using hc)
    · simp only [splitLoop, h, if_neg] at hc
      rcases List.mem_append.1 hc with hmem | hmem
      · exact hchunks c hmem
      · rcases List.mem_singleton.1 hmem with rfl
        exact ⟨h, hlen, hsize⟩
  | cons item rest ih =>
    intro chunks cur n hchunks hn hlen hsize c hc
    simp only [splitLoop] at hc
    by_cases hcond : cur.length ≥ s.max_items_per_file ∨
        n + item.jsonSize > s.max_file_size_kb * 1024
    · rw [if_pos hcond] at hc
      by_cases hcur : cur = []
      · rw [if_pos hcur] at hc
        refine ih chunks (cur ++ [item]) (n + item.jsonSize) hchunks ?_ ?_ ?_ c hc
        · rw [sizeSum_append_one, hn]
        · simpa [hcur] using h1
        · intro h2
          simp [hcur] at h2
      · rw [if_neg hcur] at hc
        refine ih (chunks ++ [cur]) [item] item.jsonSize ?_ ?_ ?_ ?_ c hc
        · intro d hd
          rcases List.mem_append.1 hd with hmem | hmem
          · exact hchunks d hmem
          · rcases List.mem_singleton.1 hmem with rfl
            exact ⟨hcur, hlen, hsize⟩
        · simp [sizeSum]
        · simpa using h1
        · intro h2; simp at h2
    · rw [if_neg hcond] at hc
      push_neg at hcond
      refine ih chunks (cur ++ [item]) (n + item.jsonSize) hchunks ?_ ?_ ?_ c hc
      · rw [sizeSum_append_one, hn]
      · have := hcond.1
        simp only [List.length_append, List.length_singleton]
        omega
      · intro _
        rw [sizeSum_append_one, ← hn]
        exact hcond.2

lemma split_into_chunks_flatten (s : Settings) (items : List Item) :
    (split_into_chunks s items).flatten = items := by
  simpa using splitLoop_flatten s items [] [] 0

lemma split_into_chunks_good (s : Settings) (h1 : 1 ≤ s.max_items_per_file)
    (items : List Item) : ∀ c ∈ split_into_chunks s items, goodChunk s c := by
  refine splitLoop_good s h1 items [] [] 0 (by simp) (by simp [sizeSum]) (by simp) ?_
  intro h2; simp at h2

lemma sum_chunk_lengths (s : Settings) (items : List Item) :
    ((split_into_chunks s items).map List.length).sum = items.length := by
  rw [← List.length_flatten, split_into_chunks_flatten]

lemma enum_map_snd_comp {α β : Type} (l : List α) (f : α → β) :
    l.enum.map (fun q => f q.2) = l.map f := by
  have h : l.enum.map (fun q => f q.2) = (l.enum.map Prod.snd).map f := by
    rw [List.map_map]; rfl
  rw [h, List.enum_map_snd]

/-- C1: with `max_items_per_file ≥ 1`, every chunk produced by
`split_into_chunks` holds at most `max_items_per_file` items, and every
chunk holding at least two items has a serialized size estimate of at
most `max_file_size_kb * 1024` bytes; moreover a single item whose own
size exceeds the byte budget is still emitted as a one-item chunk. -/
theorem split_chunk_bounds (s : Settings) (items : List Item)
    (h : 1 ≤ s.max_items_per_file) :
    (∀ c ∈ split_into_chunks s items,
      c.length ≤ s.max_items_per_file ∧
        (2 ≤ c.length → sizeSum c ≤ s.max_file_size_kb * 1024)) ∧
    split_into_chunks ⟨1, 1⟩ [⟨some "methods", 5000⟩] = [[⟨some "methods", 5000⟩]] := by
  constructor
  · intro c hc
    have hg := split_into_chunks_good s h items c hc
    exact ⟨hg.2.1, hg.2.2⟩
  · decide

theorem split_chunk_bounds_witness :
    (∀ c ∈ split_into_chunks ⟨50, 2⟩ [⟨some "m", 10⟩, ⟨some "m", 20⟩, ⟨none, 30⟩],
      c.length ≤ 2 ∧ (2 ≤ c.length → sizeSum c ≤ 50 * 1024)) ∧
    split_into_chunks ⟨1, 1⟩ [⟨some "methods", 5000⟩] = [[⟨some "methods", 5000⟩]] :=
  split_chunk_bounds ⟨50, 2⟩ [⟨some "m", 10⟩, ⟨some "m", 20⟩, ⟨none, 30⟩] (by decide)

/-- C3: `split_into_chunks` loses no item and keeps the input order — the
concatenation of the chunks equals the input list for every setting; in
particular 101 identical items with `max_items_per_file = 50` and a byte
budget that never binds yield exactly three chunks of sizes 50, 50, 1. -/
theorem split_concat_preserved :
    (∀ (s : Settings) (items : List Item), (split_into_chunks s items).flatten = items) ∧
    (split_into_chunks ⟨100000, 50⟩ (List.replicate 101 ⟨some "methods", 10⟩)).map List.length
      = [50, 50, 1] ∧
    (split_into_chunks ⟨100000, 50⟩ (List.replicate 101 ⟨some "methods", 10⟩)).flatten
      = List.replicate 101 ⟨some "methods", 10⟩ := by
  refine ⟨fun s items => split_into_chunks_flatten s items, ?_, ?_⟩
  · decide
  · decide

/-- C2: for every category exported by `export_split`, the sum of the
`items_count` values written into the chunk files equals the
`total_items` of the category index, and the main index built by
`create_main_index` from the same items and settings records exactly the
same `items_count` (together with the same chunk count and file list)
for that category. -/
theorem export_index_consistency (s : Settings) (data : List Item) (pfx mode : String)
    (ce : CategoryExport) (hce : ce ∈ export_split s data pfx) :
    (ce.files.map ChunkFile.items_count).sum = ce.index_total_items ∧
    (ce.category,
      (⟨ce.index_total_items, ce.index_total_chunks, ce.index_chunks⟩ : MainIndexCategory)) ∈
      (create_main_index s data mode).categories := by
  rcases List.mem_map.1 hce with ⟨p, hp, rfl⟩
  constructor
  · show (((split_into_chunks s p.2).enum.map _).map ChunkFile.items_count).sum = p.2.length
    rw [List.map_map]
    have h1 : ((split_into_chunks s p.2).enum.map
        (ChunkFile.items_count ∘ fun q =>
          ({ filename := (if pfx ≠ "" then pfx ++ "_" else "") ++ p.1 ++ "_" ++ pad3 (q.1 + 1) ++ ".json"
             items_count := q.2.length } : ChunkFile))) =
        (split_into_chunks s p.2).map List.length := by
      exact enum_map_snd_comp (split_into_chunks s p.2) List.length
    rw [h1, sum_chunk_lengths]
  · exact List.mem_map.2 ⟨p, hp, rfl⟩

theorem export_index_consistency_witness :
    ((([⟨"optimized_methods_001.json", 2⟩] : List ChunkFile)).map ChunkFile.items_count).sum = 2 ∧
    (("methods", (⟨2, 1, ["methods_001.json"]⟩ : MainIndexCategory)) :
        String × MainIndexCategory) ∈
      (create_main_index ⟨50, 50⟩
        [⟨some "methods", 10⟩, ⟨some "functions", 20⟩, ⟨some "methods", 30⟩]
        "optimized_split").categories :=
  export_index_consistency ⟨50, 50⟩
    [⟨some "methods", 10⟩, ⟨some "functions", 20⟩, ⟨some "methods", 30⟩]
    "optimized" "optimized_split"
    ⟨"methods", [⟨"optimized_methods_001.json", 2⟩], 2, 1, ["methods_001.json"]⟩
    (by decide)

/-- C9 (divergence witness): with the prefix `"optimized"` — the value
`OptimizedSplitConverter.convert` actually passes — `export_split` writes
the chunk file `optimized_methods_001.json` but records
`methods_001.json` in the category index's `chunks` list, so the index
names a file that was never written. -/
theorem index_filenames_diverge :
    ((export_split ⟨50, 50⟩ [⟨some "methods", 10⟩] "optimized").map
        (fun ce => (ce.files.map ChunkFile.filename, ce.index_chunks))) =
      [(["optimized_methods_001.json"], ["methods_001.json"])] ∧
    (["optimized_methods_001.json"] : List String) ≠ ["methods_001.json"] := by
  constructor
  · decide
  · decide

/-! ### Record Extractor (`src/parsers/bsl_syntax_extractor.py`)

The extractor only ever walks a page through the chapter markers
`soup.find_all('p', class_='V8SH_chapter')` and each marker's forward
sibling chain (`next_sibling` / `find_next_sibling`).  A page is
therefore modelled as the ordered list of its chapter markers, each
carrying its own forward sibling sequence; a sibling is either a tag
element (with tag name, class list and stripped text) or a bare string
node, matching the two branches `hasattr(current, 'get_text')` /
`isinstance(current, str)` of the source.  The embedding covers the
sections the design claims talk about — title, category-from-path,
syntax and syntax variants, description, availability, return value,
version and example; the parameter, method, collection-element and link
scans of the source are outside the scope of the verified claims and are
not modelled. -/

/-- One forward sibling of a chapter marker: a tag element (with its
`get_text(strip=True)` text) or a bare string node. -/
inductive SibNode where
  | tag (name : String) (classes : List String) (text : String)
  | strNode (s : String)
deriving DecidableEq

/-- One `p.V8SH_chapter` marker: its stripped text and its forward
sibling chain. -/
structure Chapter where
  text : String
  sibs : List SibNode
deriving DecidableEq

/-- A parsed page: the optional `h1.V8SH_pagetitle` text and the chapter
markers in document order. -/
structure Soup where
  title : Option String
  chapters : List Chapter
deriving DecidableEq

/-- One named syntax variant (`{'variant_name': ..., 'syntax': ...}`);
`stx` models the Python key `syntax`. -/
structure Variant where
  variant_name : String
  stx : String
deriving DecidableEq

/-- The extracted record, restricted to the modelled fields; `stx` models
the key `syntax` and `exmpl` the key `example`. -/
structure Record where
  filename : String
  title : String
  stx : String
  description : String
  return_value : String
  category : String
  availability : List String
  version : String
  exmpl : String
  stx_variants : List Variant
deriving DecidableEq

/-- Model of `elem.find_next_sibling('p')`: the first forward sibling
that is a tag named `p`. -/
def findNextSiblingP (sibs : List SibNode) : Option SibNode :=
  sibs.find? (fun n => match n with
    | SibNode.tag nm _ _ => nm == "p"
    | SibNode.strNode _ => false)

/-- Model of `elem.find_next_sibling('p', class_=cls)`. -/
def findNextSiblingPClass (cls : String) (sibs : List SibNode) : Option SibNode :=
  sibs.find? (fun n => match n with
    | SibNode.tag nm classes _ => nm == "p" && classes.contains cls
    | SibNode.strNode _ => false)

/-- Model of the first `table` element reachable forward from a marker. -/
def findNextTable (sibs : List SibNode) : Option SibNode :=
  sibs.find? (fun n => match n with
    | SibNode.tag nm _ _ => nm == "table"
    | SibNode.strNode _ => false)

/-- The `while current:` scan attaching a syntax body to the open variant:
the accumulator is the Python variable `syntax_text`, whose last
assignment survives even when the loop runs off the end of the siblings. -/
def scanVariantSyntax : List SibNode → String → String
  | [], acc => acc
  | SibNode.tag nm classes t :: rest, acc =>
    if nm ≠ "p" ∨ ¬ classes.contains "V8SH_chapter" then
      if t ≠ "" ∧ t ≠ "Параметры:" then t else scanVariantSyntax rest t
    else scanVariantSyntax rest acc
  | SibNode.strNode sn :: rest, _acc =>
    let t := pyStrip sn
    if t ≠ "" ∧ t ≠ "Параметры:" then t else scanVariantSyntax rest t

/-- The `while current:` scan for the plain (variant-free) syntax branch:
`result['syntax']` is written only when the loop breaks, so the scan
yields `none` when no acceptable sibling is found. -/
def scanPlainSyntax : List SibNode → Option String
  | [] => none
  | SibNode.tag nm classes t :: rest =>
    if nm ≠ "p" ∨ ¬ classes.contains "V8SH_chapter" then
      if t ≠ "" ∧ t ≠ "Параметры:" then some t else scanPlainSyntax rest
    else scanPlainSyntax rest
  | SibNode.strNode sn :: rest =>
    let t := pyStrip sn
    if t ≠ "" ∧ t ≠ "Параметры:" then some t else scanPlainSyntax rest

/-- The marker loop of the syntax section: `curVar` is the Python
variable `current_variant` (`""` models `None`, matching Python
truthiness), the first component of the result is `syntax_variants` and
the second is `result['syntax']` as assigned by the plain branch (which
also breaks out of the loop). -/
def synLoop : List Chapter → String → List Variant → String → List Variant × String
  | [], _, vars, stx0 => (vars, stx0)
  | ch :: rest, curVar, vars, stx0 =>
    if strContains ch.text "Вариант синтаксиса:" then
      synLoop rest (pyStrip (pyReplace ch.text "Вариант синтаксиса:" "")) vars stx0
    else if strContains ch.text "Синтаксис:" ∧ curVar ≠ "" then
      let t := scanVariantSyntax ch.sibs ""
      if t ≠ "" then synLoop rest curVar (vars ++ [⟨curVar, t⟩]) stx0
      else synLoop rest curVar vars stx0
    else if strContains ch.text "Синтаксис" ∧ ¬ strContains ch.text "Вариант" ∧ curVar = "" then
      match scanPlainSyntax ch.sibs with
      | some t => (vars, t)
      | none => (vars, stx0)
    else synLoop rest curVar vars stx0

/-- The description loop: first marker containing `Описание`, value is
the next `p` sibling's text. -/
def descLoop : List Chapter → String
  | [] => ""
  | ch :: rest =>
    if strContains ch.text "Описание" then
      match findNextSiblingP ch.sibs with
      | some (SibNode.tag _ _ t) => t
      | _ => ""
    else descLoop rest

/-- The availability loop: first marker containing `Доступность`, value
is the next `p` sibling's text split on commas with each segment
stripped — empty segments are kept, exactly as in the source. -/
def availLoop : List Chapter → List String
  | [] => []
  | ch :: rest =>
    if strContains ch.text "Доступность" then
      match findNextSiblingP ch.sibs with
      | some (SibNode.tag _ _ t) => (pySplit t ",").map pyStrip
      | _ => []
    else availLoop rest

/-- The return-value loop. -/
def retLoop : List Chapter → String
  | [] => ""
  | ch :: rest =>
    if strContains ch.text "Возвращаемое значение" then
      match findNextSiblingP ch.sibs with
      | some (SibNode.tag _ _ t) => t
      | _ => ""
    else retLoop rest

/-- Substring of `t` after the first occurrence of `версии`, stripped;
empty when `версии` does not occur (the source slices
`version_text[version_text.find('версии') + 6:]`). -/
def afterVersionWord (t : String) : String :=
  match pySplit t "версии" with
  | _ :: t1 :: ts => pyStrip (strJoinWith "версии" (t1 :: ts))
  | _ => ""

/-- The version loop: first marker containing `Использование в версии`,
value taken from the next `p.V8SH_versionInfo` sibling. -/
def versionLoop : List Chapter → String
  | [] => ""
  | ch :: rest =>
    if strContains ch.text "Использование в версии" then
      match findNextSiblingPClass "V8SH_versionInfo" ch.sibs with
      | some (SibNode.tag _ _ t) =>
        if strContains t "версии" then afterVersionWord t else ""
      | _ => ""
    else versionLoop rest

/-- The example loop: first marker containing `Пример`, value is the
full text of the next `table` element. -/
def exampleLoop : List Chapter → String
  | [] => ""
  | ch :: rest =>
    if strContains ch.text "Пример" then
      match findNextTable ch.sibs with
      | some (SibNode.tag _ _ t) => t
      | _ => ""
    else exampleLoop rest

/-- Model of the category-from-path dispatch (`'objects/' in filename`
and so on, first match wins). -/
def categoryFromPath (filename : String) : String :=
  if strContains filename "objects/" then "object"
  else if strContains filename "tables/" then "table"
  else if strContains filename "methods/" then "method"
  else if strContains filename "properties/" then "property"
  else ""

/-- The successful body of `extract_syntax_info`: builds the record from
the parsed page.  After the marker loop, `syntax_variants` (when
non-empty) is stored and its first variant's syntax overwrites
`result['syntax']`, exactly as in the source. -/
def buildRecord (soup : Soup) (filename : String) : Record :=
  let sv := synLoop soup.chapters "" [] ""
  { filename := filename
    title := soup.title.getD ""
    stx := match sv.1 with
      | [] => sv.2
      | v :: _ => v.stx
    description := descLoop soup.chapters
    return_value := retLoop soup.chapters
    category := categoryFromPath filename
    availability := availLoop soup.chapters
    version := versionLoop soup.chapters
    exmpl := exampleLoop soup.chapters
    stx_variants := sv.1 }

/-- Input markup for one page: either a page the HTML capability parses
and traverses successfully, or markup on which parsing/DOM traversal
raises (the exception's `str(e)` message is carried). -/
inductive Markup where
  | page (soup : Soup)
  | malformed (msg : String)
deriving DecidableEq

/-- The value returned by `extract_syntax_info`: a full record, or the
two-key error dict `{'filename': ..., 'error': str(e)}`. -/
inductive ExtractResult where
  | ok (r : Record)
  | err (filename : String) (error : String)
deriving DecidableEq

/-- The body of the `try:` block of `extract_syntax_info`: everything up
to the `return result`, as a fallible computation. -/
def extractBody (m : Markup) (filename : String) : Except String Record :=
  match m with
  | Markup.malformed e => Except.error e
  | Markup.page soup => Except.ok (buildRecord soup filename)

/-- Model of `BSLSyntaxExtractor.extract_syntax_info`: the `try/except`
wrapper around `extractBody` — any internal failure is caught and turned
into the error dict, so the function itself is total. -/
def extract_syntax_info (m : Markup) (filename : String) : ExtractResult :=
  match extractBody m filename with
  | Except.ok r => ExtractResult.ok r
  | Except.error e => ExtractResult.err filename e

/-- The six category dicts of `self.syntax_data`, each an
insertion-ordered mapping from title to record. -/
structure SyntaxData where
  objects : List (String × Record)
  methods : List (String × Record)
  properties : List (String × Record)
  functions : List (String × Record)
  operators : List (String × Record)
  keywords : List (String × Record)
deriving DecidableEq

/-- Model of Python dict assignment `d[title] = info`: overwrite in place
when the key exists, append otherwise. -/
def dictInsert (d : List (String × Record)) (k : String) (r : Record) :
    List (String × Record) :=
  if d.any (fun p => p.1 == k) then d.map (fun p => if p.1 == k then (k, r) else p)
  else d ++ [(k, r)]

/-- Model of `categorize_syntax` of `BSLSyntaxExtractor`: error records are
skipped (`'error' in syntax_info`), otherwise the record is filed by the
title-keyword cascade, defaulting to `objects`. -/
def categorize_stx (data : SyntaxData) : ExtractResult → SyntaxData
  | ExtractResult.err _ _ => data
  | ExtractResult.ok r =>
    let title := r.title
    if strContains title "Функция" ∨ strContains (pyLower title) "function" then
      { data with functions := dictInsert data.functions title r }
    else if strContains title "Метод" ∨ strContains (pyLower title) "method" then
      { data with methods := dictInsert data.methods title r }
    else if strContains title "Свойство" ∨ strContains (pyLower title) "property" then
      { data with properties := dictInsert data.properties title r }
    else if strContains title "Оператор" ∨ strContains (pyLower title) "operator" then
      { data with operators := dictInsert data.operators title r }
    else if strContains title "Ключевое слово" ∨ strContains (pyLower title) "keyword" then
      { data with keywords := dictInsert data.keywords title r }
    else if r.category = "object" then
      { data with objects := dictInsert data.objects title r }
    else
      { data with objects := dictInsert data.objects title r }

/-- The empty `self.syntax_data`. -/
def emptySyntaxData : SyntaxData :=
  ⟨[], [], [], [], [], []⟩

/-- Model of `extract_all_syntax` of `BSLSyntaxExtractor`: the batch loop over
the first `max_files` pages (each given as archive path plus markup);
every page is extracted, categorized and counted in `processed`, and
extraction failures never abort the loop. -/
def extract_all_stx (files : List (String × Markup)) (max_files : Nat) :
    SyntaxData × Nat :=
  (files.take max_files).foldl
    (fun acc fm => (categorize_stx acc.1 (extract_syntax_info fm.2 fm.1), acc.2 + 1))
    (emptySyntaxData, 0)

lemma extract_all_count (files : List (String × Markup)) :
    ∀ (d : SyntaxData) (n : Nat),
      (files.foldl
        (fun acc fm => (categorize_stx acc.1 (extract_syntax_info fm.2 fm.1), acc.2 + 1))
        (d, n)).2 = n + files.length := by
  induction files with
  | nil => intro d n; simp
  | cons fm rest ih =>
    intro d n
    simp only [List.foldl_cons, List.length_cons]
    rw [ih]
    omega

/-- C4: the record extractor is total (never raises outward): on any
markup whose parse or traversal fails it returns exactly the two-field
error record carrying the page's filename and the exception message, on
any parseable page it returns the built record, the error record is
excluded from categorization without aborting, and the batch loop
processes every one of the first `max_files` pages regardless of
failures. -/
theorem extractor_error_isolation (files : List (String × Markup)) (max_files : Nat)
    (f e : String) (d : SyntaxData) (soup : Soup) :
    extract_syntax_info (Markup.malformed e) f = ExtractResult.err f e ∧
    extract_syntax_info (Markup.page soup) f = ExtractResult.ok (buildRecord soup f) ∧
    categorize_stx d (ExtractResult.err f e) = d ∧
    (extract_all_stx files max_files).2 = (files.take max_files).length := by
  refine ⟨rfl, rfl, rfl, ?_⟩
  unfold extract_all_stx
  rw [extract_all_count]
  omega

/-- C5 (counterexample): the source keeps empty availability segments —
stripping but not filtering the comma-split — so the page whose
availability text is `"Server,, Web client"` yields the list
`["Server", "", "Web client"]`, which contains the empty string the
claim says is dropped. -/
theorem availability_empty_segment_kept :
    (buildRecord
        ⟨none, [⟨"Доступность:", [SibNode.tag "p" [] "Server,, Web client"]⟩]⟩
        "f.html").availability = ["Server", "", "Web client"] ∧
    "" ∈ (buildRecord
        ⟨none, [⟨"Доступность:", [SibNode.tag "p" [] "Server,, Web client"]⟩]⟩
        "f.html").availability := by
  constructor
  · decide
  · decide

/-- C5 (amended): for every page whose first availability marker's next
`p` sibling has text `t`, the extracted availability list equals `t`
split on commas with each segment stripped; empty segments are kept, and
in particular `"Server, Thin client, Web client"` parses to exactly
`["Server", "Thin client", "Web client"]`. -/
theorem availability_split_trimmed (ttl : Option String) (pre rest : List Chapter)
    (mtext : String) (sibs : List SibNode) (f nm t : String) (cls : List String)
    (hpre : ∀ ch ∈ pre, strContains ch.text "Доступность" = false)
    (hm : strContains mtext "Доступность" = true)
    (hsib : findNextSiblingP sibs = some (SibNode.tag nm cls t)) :
    (buildRecord ⟨ttl, pre ++ ⟨mtext, sibs⟩ :: rest⟩ f).availability
      = (pySplit t ",").map pyStrip := by
  show availLoop (pre ++ ⟨mtext, sibs⟩ :: rest) = _
  induction pre with
  | nil => simp [availLoop, hm, hsib]
  | cons ch pre ih =>
    have hch := hpre ch (List.mem_cons_self ch pre)
    simp only [List.cons_append, availLoop, hch]
    exact ih (fun c hc => hpre c (List.mem_cons_of_mem ch hc))

theorem availability_split_trimmed_witness :
    (buildRecord
        ⟨none, [⟨"Доступность:", [SibNode.tag "p" [] "Server, Thin client, Web client"]⟩]⟩
        "f.html").availability = ["Server", "Thin client", "Web client"] :=
  (availability_split_trimmed none [] [] "Доступность:"
      [SibNode.tag "p" [] "Server, Thin client, Web client"] "f.html" "p"
      "Server, Thin client, Web client" [] (by simp) (by decide) (by decide)).trans
    (by decide)

lemma synLoop_fst_no_marker (chs : List Chapter) :
    ∀ (vars : List Variant) (stx0 : String),
      (∀ ch ∈ chs, strContains ch.text "Вариант синтаксиса:" = false) →
      (synLoop chs "" vars stx0).1 = vars := by
  induction chs with
  | nil => intro vars stx0 _; rfl
  | cons ch rest ih =>
    intro vars stx0 hno
    have hch := hno ch (List.mem_cons_self ch rest)
    simp only [synLoop, hch, Bool.false_eq_true, if_false, ne_eq, not_true_eq_false,
      and_false, if_false]
    split
    · cases scanPlainSyntax ch.sibs <;> rfl
    · exact ih vars stx0 (fun c hc => hno c (List.mem_cons_of_mem ch hc))

/-- C8: if the extractor records a non-empty `syntax_variants` list, the
record's `syntax` field equals the first variant's syntax; and a page
none of whose chapter markers contains `Вариант синтаксиса:` never
populates `syntax_variants`. -/
theorem syntax_first_variant_consistency (soup : Soup) (f : String) :
    (∀ (v : Variant) (vs : List Variant),
      (buildRecord soup f).stx_variants = v :: vs → (buildRecord soup f).stx = v.stx) ∧
    ((∀ ch ∈ soup.chapters, strContains ch.text "Вариант синтаксиса:" = false) →
      (buildRecord soup f).stx_variants = []) := by
  constructor
  · intro v vs h
    have hv : (synLoop soup.chapters "" [] "").1 = v :: vs := h
    show (match (synLoop soup.chapters "" [] "").1 with
          | [] => (synLoop soup.chapters "" [] "").2
          | w :: _ => w.stx) = v.stx
    rw [hv]
  · intro hno
    exact synLoop_fst_no_marker soup.chapters [] "" hno

theorem syntax_first_variant_consistency_witness :
    (buildRecord
        ⟨none, [⟨"Вариант синтаксиса: Один", []⟩,
                ⟨"Синтаксис:", [SibNode.tag "div" [] "Foo(x)"]⟩]⟩
        "f.html").stx = "Foo(x)" ∧
    (buildRecord ⟨none, [⟨"Синтаксис", [SibNode.tag "div" [] "Bar(y)"]⟩]⟩ "g.html").stx_variants
      = [] :=
  ⟨(syntax_first_variant_consistency
      ⟨none, [⟨"Вариант синтаксиса: Один", []⟩,
              ⟨"Синтаксис:", [SibNode.tag "div" [] "Foo(x)"]⟩]⟩ "f.html").1
      ⟨"Один", "Foo(x)"⟩ [] (by decide),
   (syntax_first_variant_consistency
      ⟨none, [⟨"Синтаксис", [SibNode.tag "div" [] "Bar(y)"]⟩]⟩ "g.html").2 (by decide)⟩

/-! ### OptimizedSplitConverter (`src/converters/optimized_split_converter.py`)

A context item as read by `optimize_data` and its inner `score_item`:
`item.get('category')`, `item.get('metadata', {})` with the six metadata
keys the scorer tests, and `item.get('content', '')`. -/

/-- One entry of a record's `methods` list. -/
structure MethodEntry where
  name : String
  english_name : String
  full_name : String
deriving DecidableEq

/-- One parameter descriptor as stored under `parameters`; the scorer
only tests the list for emptiness. -/
structure ParamInfo where
  name : String
  optional : Bool
deriving DecidableEq

/-- The metadata keys `score_item` reads; `stx` models `syntax`,
`stx_variants` models `syntax_variants`, `exmpl` models `example`. -/
structure OptMetadata where
  stx : String
  stx_variants : List Variant
  parameters : List ParamInfo
  parameters_by_variant : List (String × List ParamInfo)
  exmpl : String
  methods : List MethodEntry
deriving DecidableEq

/-- One context item as seen by the optimized split converter. -/
structure OptItem where
  category : Option String
  metadata : OptMetadata
  content : String
deriving DecidableEq

/-- Model of the inner `score_item` of `_sort_by_importance`: the
sequential accumulation mirrors the Python statements one for one
(absent dict keys and empty values are both falsy, so emptiness models
`metadata.get(...)` truthiness). -/
def score_item (it : OptItem) : Nat :=
  let md := it.metadata
  let s0 := 0
  let s1 := if it.category = some "methods" ∨ it.category = some "functions" then s0 + 100 else s0
  let s2 := if md.stx ≠ "" ∨ md.stx_variants ≠ [] then s1 + 50 else s1
  let s3 := if md.parameters ≠ [] ∨ md.parameters_by_variant ≠ [] then s2 + 30 else s2
  let s4 := if md.exmpl ≠ "" then s3 + 20 else s3
  let s5 := if md.methods ≠ [] then s4 + md.methods.length * 10 else s4
  if it.content.length > 50 then s5 + 10 else s5

/-- Stable insertion of `a` before the first element whose score does not
exceed `score_item a`. -/
def insertByScore (a : OptItem) : List OptItem → List OptItem
  | [] => [a]
  | b :: bs => if score_item b ≤ score_item a then a :: b :: bs else b :: insertByScore a bs

/-- Model of `_sort_by_importance`, i.e. of
`sorted(items, key=score_item, reverse=True)`: Python's sort is stable,
so its output is characterized as the unique score-descending
permutation in which equal-score items keep their input order; the
insertion sort below produces exactly that list. -/
def sort_by_importance : List OptItem → List OptItem
  | [] => []
  | a :: rest => insertByScore a (sort_by_importance rest)

/-- The `priorities` table of `optimize_data`.  It is defined in the
source and never read again: no later statement of
`optimized_split_converter.py` mentions `priorities`, so category
priority plays no part in the output order. -/
def priorities : List (String × Nat) :=
  [("methods", 1), ("functions", 2), ("operators", 3), ("objects", 4), ("properties", 5)]

/-- Model of `limits.get(category, 100)` in `optimize_data`. -/
def limitOf (c : String) : Nat :=
  if c = "methods" then 200
  else if c = "functions" then 300
  else if c = "operators" then 50
  else if c = "objects" then 500
  else if c = "properties" then 200
  else 100

/-- The selection loop of `optimize_data`: walk the score-sorted items
and keep each item whose category count is still below its limit. -/
def selectLoop : List OptItem → (String → Nat) → List OptItem
  | [], _ => []
  | i :: rest, counts =>
    let c := i.category.getD "other"
    if counts c < limitOf c then
      i :: selectLoop rest (fun x => if x = c then counts c + 1 else counts x)
    else selectLoop rest counts

/-- Model of `OptimizedSplitConverter.optimize_data`: sort all items by
score (descending, stable) and then apply the per-category limits in
that global order. -/
def optimize_data (items : List OptItem) : List OptItem :=
  selectLoop (sort_by_importance items) (fun _ => 0)

/-! ### Selector/scorer lemmas -/

lemma mem_insertByScore (a y : OptItem) (l : List OptItem)
    (hy : y ∈ insertByScore a l) : y = a ∨ y ∈ l := by
  induction l with
  | nil => simpa [insertByScore] using hy
  | cons c cs ihc =>
    by_cases hca : score_item c ≤ score_item a
    · rw [insertByScore, if_pos hca] at hy
      rcases List.mem_cons.1 hy with rfl | hy2
      · exact Or.inl rfl
      · exact Or.inr hy2
    · rw [insertByScore, if_neg hca] at hy
      rcases List.mem_cons.1 hy with rfl | hy2
      · exact Or.inr (List.mem_cons_self _ _)
      · rcases ihc hy2 with h | h
        · exact Or.inl h
        · exact Or.inr (List.mem_cons_of_mem _ h)

lemma insertByScore_pairwise (a : OptItem) (l : List OptItem)
    (hl : l.Pairwise (fun x y => score_item y ≤ score_item x)) :
    (insertByScore a l).Pairwise (fun x y => score_item y ≤ score_item x) := by
  induction l with
  | nil => simp [insertByScore]
  | cons b bs ih =>
    rcases List.pairwise_cons.1 hl with ⟨hb, hbs⟩
    by_cases hba : score_item b ≤ score_item a
    · rw [insertByScore, if_pos hba]
      refine List.pairwise_cons.2 ⟨?_, hl⟩
      intro y hy
      rcases List.mem_cons.1 hy with rfl | hy
      · exact hba
      · exact le_trans (hb y hy) hba
    · rw [insertByScore, if_neg hba]
      refine List.pairwise_cons.2 ⟨?_, ih hbs⟩
      intro y hy
      rcases mem_insertByScore a y bs hy with rfl | hy2
      · exact le_of_lt (lt_of_not_le hba)
      · exact hb y hy2

lemma sort_by_importance_pairwise (l : List OptItem) :
    (sort_by_importance l).Pairwise (fun x y => score_item y ≤ score_item x) := by
  induction l with
  | nil => simp [sort_by_importance]
  | cons a rest ih => exact insertByScore_pairwise a (sort_by_importance rest) ih

lemma filter_insertByScore (a : OptItem) (l : List OptItem) (s : Nat) :
    (insertByScore a l).filter (fun y => score_item y == s)
      = if score_item a == s then a :: l.filter (fun y => score_item y == s)
        else l.filter (fun y => score_item y == s) := by
  induction l with
  | nil => by_cases h : score_item a == s <;> simp [insertByScore, List.filter, h]
  | cons b bs ih =>
    by_cases hba : score_item b ≤ score_item a
    · rw [insertByScore, if_pos hba]
      by_cases ha : score_item a == s <;> simp [List.filter, ha]
    · rw [insertByScore, if_neg hba]
      by_cases ha : score_item a == s
      · have hbs : (score_item b == s) = false := by
          have : score_item a = s := by simpa using ha
          have hlt : score_item a < score_item b := lt_of_not_le hba
          simp only [beq_eq_false_iff_ne, ne_eq]
          omega
        rw [if_pos ha]
        rw [List.filter_cons_of_neg (by simp [hbs]), List.filter_cons_of_neg (by simp [hbs])]
        rw [ih, if_pos ha]
      · rw [if_neg ha]
        by_cases hb : score_item b == s
        · rw [List.filter_cons_of_pos (by simp [hb]), List.filter_cons_of_pos (by simp [hb])]
          rw [ih, if_neg ha]
        · rw [List.filter_cons_of_neg (by simp [hb]), List.filter_cons_of_neg (by simp [hb])]
          rw [ih, if_neg ha]

lemma filter_sort_by_importance (l : List OptItem) (s : Nat) :
    (sort_by_importance l).filter (fun y => score_item y == s)
      = l.filter (fun y => score_item y == s) := by
  induction l with
  | nil => rfl
  | cons a rest ih =>
    rw [sort_by_importance, filter_insertByScore]
    by_cases ha : score_item a == s
    · rw [if_pos ha, List.filter_cons_of_pos (by simp at ha ⊢; exact ha), ih]
    · rw [if_neg ha, List.filter_cons_of_neg (by simpa using ha), ih]

lemma selectLoop_sublist (l : List OptItem) :
    ∀ counts : String → Nat, (selectLoop l counts).Sublist l := by
  induction l with
  | nil => intro counts; simp [selectLoop]
  | cons i rest ih =>
    intro counts
    rw [selectLoop]
    by_cases h : counts (i.category.getD "other") < limitOf (i.category.getD "other")
    · rw [if_pos h]
      exact List.Sublist.cons₂ i (ih _)
    · rw [if_neg h]
      exact List.Sublist.cons i (ih counts)

/-- A high-scoring properties item (twenty own methods, score 200). -/
def propDemoItem : OptItem :=
  ⟨some "properties", ⟨"", [], [], [], "", List.replicate 20 ⟨"М", "M", "М (M)"⟩⟩, ""⟩

/-- A plain methods item (category bonus only, score 100). -/
def methDemoItem : OptItem :=
  ⟨some "methods", ⟨"", [], [], [], "", []⟩, ""⟩

/-- C6 (counterexample): `optimize_data` keeps both of these items but
emits the `properties` item before the `methods` item, because the
output follows the global score order — the `priorities` table is never
consulted — so kept methods-category items do not all precede kept
properties-category items. -/
theorem optimize_priority_order_fails :
    optimize_data [propDemoItem, methDemoItem] = [propDemoItem, methDemoItem] ∧
    propDemoItem.category = some "properties" ∧
    methDemoItem.category = some "methods" ∧
    score_item propDemoItem = 200 ∧ score_item methDemoItem = 100 := by
  refine ⟨by decide, rfl, rfl, by decide, by decide⟩

/-- C6 (amended): the optimized selector's output is ordered by score
descending across all items (not by category priority): the output is a
subsequence of the stable score-descending sort, it is pairwise
score-descending, within each category it is pairwise score-descending,
and for every score value the equal-score items appear as a subsequence
of the input's equal-score items, i.e. ties keep original input order. -/
theorem optimize_order_amended (items : List OptItem) :
    (optimize_data items).Sublist (sort_by_importance items) ∧
    (optimize_data items).Pairwise (fun x y => score_item y ≤ score_item x) ∧
    (∀ c : String,
      ((optimize_data items).filter (fun it => it.category.getD "other" == c)).Pairwise
        (fun x y => score_item y ≤ score_item x)) ∧
    (∀ s : Nat,
      ((optimize_data items).filter (fun it => score_item it == s)).Sublist
        (items.filter (fun it => score_item it == s))) := by
  have hsub : (optimize_data items).Sublist (sort_by_importance items) :=
    selectLoop_sublist (sort_by_importance items) (fun _ => 0)
  have hpw : (optimize_data items).Pairwise (fun x y => score_item y ≤ score_item x) :=
    List.Pairwise.sublist hsub (sort_by_importance_pairwise items)
  refine ⟨hsub, hpw, ?_, ?_⟩
  · intro c
    exact List.Pairwise.sublist (List.filter_sublist _) hpw
  · intro s
    have h1 := List.Sublist.filter (fun it => score_item it == s) hsub
    rw [filter_sort_by_importance] at h1
    exact h1

/-- C7 (counterexample): an item whose only populated field is the
non-empty content `"hello"` scores 0, not the claimed baseline 1; and a
bare methods-category item scores 100 through a category bonus the
claimed weighted sum does not list. -/
theorem score_baseline_fails :
    score_item ⟨none, ⟨"", [], [], [], "", []⟩, "hello"⟩ = 0 ∧
    (⟨none, ⟨"", [], [], [], "", []⟩, "hello"⟩ : OptItem).content ≠ "" ∧
    score_item ⟨some "methods", ⟨"", [], [], [], "", []⟩, ""⟩ = 100 := by
  refine ⟨by decide, by decide, by decide⟩

/-- C7 (amended): the importance score is exactly the non-negative sum
of a 100-point bonus for the methods/functions categories, 50 for any
syntax (single or variants), 30 for any parameters (flat or
per-variant), 20 for a non-empty example, 10 per own method, and 10 when
the content is longer than 50 characters — merely non-empty
description/content contributes nothing. -/
theorem score_closed_form (it : OptItem) :
    score_item it =
      (if it.category = some "methods" ∨ it.category = some "functions" then 100 else 0) +
      (if it.metadata.stx ≠ "" ∨ it.metadata.stx_variants ≠ [] then 50 else 0) +
      (if it.metadata.parameters ≠ [] ∨ it.metadata.parameters_by_variant ≠ [] then 30 else 0) +
      (if it.metadata.exmpl ≠ "" then 20 else 0) +
      10 * it.metadata.methods.length +
      (if it.content.length > 50 then 10 else 0) := by
  unfold score_item
  by_cases h5 : it.metadata.methods ≠ []
  · simp only [h5, if_true, Nat.zero_add]
    split <;> split <;> split <;> split <;> split <;> omega
  · have h50 : it.metadata.methods = [] := by simpa using h5
    simp only [h5, if_false, h50, List.length_nil, Nat.zero_add]
    split <;> split <;> split <;> split <;> split <;> omega

/-! ### OptimizedContextConverter (`src/converters/optimized_context_converter.py`) -/

/-- The availability keyword table of `extract_availability`. -/
def availability_keywords : List String :=
  ["Сервер", "Клиент", "Мобильное приложение", "Мобильный автономный сервер",
   "Внешнее соединение", "Толстый клиент", "Тонкий клиент", "Веб-клиент"]

/-- Model of `OptimizedContextConverter.extract_availability`: collect
every keyword that occurs case-insensitively in the content; fall back
to `["Клиент", "Сервер"]` when none does. -/
def extract_availability (content : String) : List String :=
  let content_lower := pyLower content
  let availability := availability_keywords.filter
    (fun kw => strContains content_lower (pyLower kw))
  if availability = [] then ["Клиент", "Сервер"] else availability

/-- One input item as read by the availability path of
`format_optimized_item`. -/
structure OptCtxItem where
  id : String
  title : String
  content : String
deriving DecidableEq

/-- The `availability` component of the dict returned by
`format_optimized_item`: extracted from the content when the item has
one, the same `["Клиент", "Сервер"]` default otherwise (the remaining
components of the returned dict do not interact with this field). -/
def format_optimized_item_availability (item : OptCtxItem) : List String :=
  if item.content ≠ "" then extract_availability item.content
  else ["Клиент", "Сервер"]

lemma extract_availability_ne_nil (content : String) :
    extract_availability content ≠ [] := by
  simp only [extract_availability]
  split
  · simp
  · assumption

/-- C10: `extract_availability` never returns an empty list; on content
containing no availability keyword (case-insensitively) it returns
exactly `["Клиент", "Сервер"]`; and `format_optimized_item` uses the
same default for items without content, so a formatted item's
availability is never empty. -/
theorem availability_default_nonempty (content c2 : String) (item : OptCtxItem)
    (h : ∀ kw ∈ availability_keywords, strContains (pyLower c2) (pyLower kw) = false) :
    extract_availability content ≠ [] ∧
    extract_availability c2 = ["Клиент", "Сервер"] ∧
    format_optimized_item_availability item ≠ [] := by
  refine ⟨extract_availability_ne_nil content, ?_, ?_⟩
  · have hfil : availability_keywords.filter
        (fun kw => strContains (pyLower c2) (pyLower kw)) = [] := by
      refine List.filter_eq_nil_iff.2 ?_
      intro kw hkw
      simp [h kw hkw]
    simp only [extract_availability]
    rw [hfil]
    simp
  · unfold format_optimized_item_availability
    split
    · exact extract_availability_ne_nil item.content
    · simp

theorem availability_default_nonempty_witness :
    extract_availability "Сервер" ≠ [] ∧
    extract_availability "xyz" = ["Клиент", "Сервер"] ∧
    format_optimized_item_availability ⟨"id1", "t", ""⟩ ≠ [] :=
  availability_default_nonempty "Сервер" "xyz" ⟨"id1", "t", ""⟩ (by decide)

end HelpParser






